import Mathlib

/-!
# Verification of the mine.js world server core

Shallow embedding of `src/server/core/engine/world.rs` and
`src/server/core/network/server.rs` (the world tick loop, voxel-update
algorithm, broadcast/eviction, chunk streaming and leave handling), with
theorems settling the frozen claims about the natural-language spec.

Conventions of the embedding:
* Rust `Option::unwrap()` panics are modelled by returning `none` (or a
  dedicated `panicked` constructor) from the embedded handler; a handler
  that returns `some _` returned normally in the source.
* The external chunk engine (`Chunks` in `chunks.rs`, not part of the
  sources under verification) is modelled from the spec where its
  behaviour matters: voxel get/set, per-chunk `needs_propagation`,
  chunk-coordinate conversion `chunk = floor(voxel / chunk_size)` and
  dirty-chunk collection into `chunk_cache`.
* `f32` quantities (positions, rotations, clock time) are only stored and
  copied by the code under the claims, never computed with; their carrier
  is modelled as `Int`.
-/

/-- Wire `Update` record `(vx, vy, vz, type)` from `messages::Update`
(`world.rs`): voxel coordinate plus requested block type id. -/
structure Update where
  vx : Int
  vy : Int
  vz : Int
  type : Nat
deriving DecidableEq, Repr

/-- A single voxel write performed by the chunk engine, recorded with the
value previously stored there.  Ghost trace used to state safety of
`World::on_update`. -/
structure WriteRec where
  vx : Int
  vy : Int
  vz : Int
  newId : Nat
  prevId : Nat
deriving DecidableEq, Repr

/-- Modelled from the spec: the external block `Registry` (has_type /
is_air / is_plant lookups and the canonical Air id fetched by
`get_id_by_name("Air")` at the top of `World::on_update`).  Per the spec's
design note, only the canonical air id is treated as air. -/
structure Registry where
  airId : Nat
  types : List Nat
  plantIds : List Nat
deriving DecidableEq, Repr

def Registry.has_type (r : Registry) (id : Nat) : Bool :=
  r.types.contains id

def Registry.is_air (r : Registry) (id : Nat) : Bool :=
  id == r.airId

def Registry.is_plant (r : Registry) (id : Nat) : Bool :=
  r.plantIds.contains id

/-- Modelled from the spec: the external chunk engine state visible to
`World::on_update` — voxel grid, chunk presence, per-chunk
`needs_propagation` flag, the per-tick `chunk_cache` set of dirtied chunk
coordinates, and configuration (`chunk_size`, `max_height`).  `writes` is
a ghost trace of every voxel write the engine performed. -/
structure Chunks where
  chunk_size : Nat
  max_height : Nat
  registry : Registry
  voxels : Int → Int → Int → Nat
  has_chunk : Int × Int → Bool
  np_flag : Int × Int → Bool
  chunk_cache : List (Int × Int)
  writes : List WriteRec

/-- `chunk = floor(voxel / chunk_size)` (spec §3), on both horizontal axes. -/
def chunkCoords (cs : Nat) (vx vz : Int) : Int × Int :=
  (Int.fdiv vx (cs : Int), Int.fdiv vz (cs : Int))

/-- `Chunks::get_chunk_by_voxel` returns the chunk owning the voxel, if
present; the only chunk datum the update loop reads is
`needs_propagation`, so the model returns that flag. -/
def Chunks.get_chunk_by_voxel (c : Chunks) (vx vy vz : Int) : Option Bool :=
  let cc := chunkCoords c.chunk_size vx vz
  if c.has_chunk cc then some (c.np_flag cc) else none

/-- `Chunks::get_voxel_by_voxel`. -/
def Chunks.get_voxel_by_voxel (c : Chunks) (vx vy vz : Int) : Nat :=
  c.voxels vx vy vz

/-- Modelled from the spec: `Chunks::update` sets the voxel; the
surrounding `start_caching`/`stop_caching` scope's dirty marking is
carried by the explicit neighbor insertion the caller performs.  The
write is recorded in the ghost trace together with the overwritten id. -/
def Chunks.update (c : Chunks) (vx vy vz : Int) (id : Nat) : Chunks :=
  { c with
    voxels := fun x y z =>
      if x = vx ∧ y = vy ∧ z = vz then id else c.voxels x y z,
    writes := c.writes ++ [⟨vx, vy, vz, id, c.get_voxel_by_voxel vx vy vz⟩] }

/-- Insert into the `chunk_cache` set (HashSet insert: no duplicates). -/
def cacheInsert (cache : List (Int × Int)) (x : Int × Int) : List (Int × Int) :=
  if cache.contains x then cache else cache ++ [x]

/-- Modelled from the spec: `Chunks::get_neighbor_chunk_coords` — the
owning chunk of the voxel together with every neighboring chunk touched
when the voxel sits on a chunk boundary. -/
def Chunks.get_neighbor_chunk_coords (c : Chunks) (vx vy vz : Int) : List (Int × Int) :=
  [(-1, -1), (-1, 0), (-1, 1), (0, -1), (0, 0), (0, 1), (1, -1), (1, 0), (1, 1)].foldl
    (fun acc d => cacheInsert acc (chunkCoords c.chunk_size (vx + d.1) (vz + d.2)))
    []

/-- `world.rs` lines 219–222: insert all neighbor chunk coords of the
written voxel into `chunk_cache`. -/
def Chunks.addNeighborsToCache (c : Chunks) (vx vy vz : Int) : Chunks :=
  { c with
    chunk_cache := (c.get_neighbor_chunk_coords vx vy vz).foldl cacheInsert c.chunk_cache }

/-- `Chunks::clear_cache`. -/
def Chunks.clearCache (c : Chunks) : Chunks :=
  { c with chunk_cache := [] }

/-- Outcome of the `while !updates.is_empty()` drain loop of
`World::on_update`: normal completion with final engine state and
accepted-results list, a panic (`get_chunk_by_voxel(..).unwrap()` on a
missing chunk), or fuel exhaustion of the embedding (shown unreachable
for the fuel `World.on_update` supplies). -/
inductive RunResult where
  | fuelOut
  | panicked
  | done (chunks : Chunks) (results : List Update)

/-- Fuel bound for the drain loop: each stack entry weighs
`1 + (max_height + 1 - vy)` so that a plant-cascade push (which replaces
an entry of height `vy` by one of height `vy + 1`) strictly lowers the
total. -/
def updWeight (mh : Nat) (u : Update) : Nat :=
  1 + (((mh : Int) + 1) - u.vy).toNat

def stackW (mh : Nat) (s : List Update) : Nat :=
  (s.map (updWeight mh)).sum

/-- The drain loop of `World::on_update` (`world.rs` lines 193–237),
head of the list = top of the Rust `Vec` stack.  Mirrors the source
guard-for-guard: range/type check, chunk lookup (panic on `None`),
`needs_propagation` skip, air-over-air skip; then the engine write, the
dirty-neighbor cache insertion, the plant-cascade push of an air update
at `vy + 1`, and the `results.push(update)`. -/
def runUpdates (mh : Nat) (air : Nat) : Nat → Chunks → List Update → List Update → RunResult
  | _, c, [], results => .done c results
  | 0, _, _ :: _, _ => .fuelOut
  | fuel + 1, c, u :: rest, results =>
    if u.vy < 0 || (mh : Int) ≤ u.vy || !(c.registry.has_type u.type) then
      runUpdates mh air fuel c rest results
    else
      match c.get_chunk_by_voxel u.vx u.vy u.vz with
      | none => .panicked
      | some np =>
        if np then
          runUpdates mh air fuel c rest results
        else if c.registry.is_air (c.get_voxel_by_voxel u.vx u.vy u.vz)
            && c.registry.is_air u.type then
          runUpdates mh air fuel c rest results
        else
          let c1 := (c.update u.vx u.vy u.vz u.type).addNeighborsToCache u.vx u.vy u.vz
          let rest1 :=
            if c1.registry.is_plant (c1.get_voxel_by_voxel u.vx (u.vy + 1) u.vz) then
              { vx := u.vx, vy := u.vy + 1, vz := u.vz, type := air } :: rest
            else rest
          runUpdates mh air fuel c1 rest1 (results ++ [u])

/-- Message outer type tags (`messages::message::Type`). -/
inductive MsgType where
  | init | request | config | update | load | peer | chat | leave | err
deriving DecidableEq, Repr

/-- `messages::chat_message::Type`. -/
inductive ChatKind where
  | info | errorKind | server
deriving DecidableEq, Repr

structure ChatBody where
  kind : ChatKind
  sender : String
  body : String
deriving DecidableEq, Repr

/-- Result of `Message::parse_json` when it succeeds: the two payload
shapes the handlers under the claims read (`{x, z}` chunk requests and
`{time, tickSpeed}` config payloads).  A message whose `json` field is
`none` fails to parse (malformed). -/
inductive ParsedJson where
  | chunkReq (x z : Int)
  | configPayload (time tick_speed : Option Int)
deriving DecidableEq, Repr

/-- Peer entry (`messages::Peer`): name plus position/rotation carriers. -/
structure PeerRec where
  name : String
  px : Int
  py : Int
  pz : Int
  qx : Int
  qy : Int
  qz : Int
  qw : Int
deriving DecidableEq, Repr

/-- Wire message (`messages::Message`): outer tag plus the payload fields
used by the handlers under the claims.  Chunk payloads are abstracted to
their coordinates. -/
structure WireMessage where
  mtype : MsgType
  json : Option ParsedJson
  updates : List Update
  chunks : List (Int × Int)
  text : String
  chat : Option ChatBody
  peers : List PeerRec
deriving DecidableEq, Repr

/-- `create_of_type`: a message of the given type with every payload
field empty. -/
def createOfType (t : MsgType) : WireMessage :=
  { mtype := t, json := none, updates := [], chunks := [], text := "",
    chat := none, peers := [] }

/-- A broadcast performed by a handler: the message and the exclusion
list passed to `World::broadcast`. -/
structure Broadcast where
  msg : WireMessage
  exclude : List Nat
deriving DecidableEq, Repr

/-- The per-dirty-chunk re-mesh message of `World::on_update`
(`MessageComponents::default_for(MessageType::Update)` with
`component.chunks = Some(vec![..])`). -/
def mkChunkUpdateMsg (coords : Int × Int) : WireMessage :=
  { createOfType .update with chunks := [coords] }

/-- The aggregate message of `World::on_update` (`create_of_type(Update)`
with `new_message.updates = results`). -/
def mkAggregateMsg (results : List Update) : WireMessage :=
  { createOfType .update with updates := results }

/-- `World::on_update` (`world.rs` lines 185–265): drain the update
stack, then emit one re-mesh message per cached dirty chunk and finally
the aggregate message carrying the accepted results; every emission is a
broadcast with an empty exclusion list.  The initial stack is the wire
list reversed because `Vec::pop` takes the last element first.  Returns
`none` when the loop panicked. -/
def World.on_update (c : Chunks) (msgUpdates : List Update) :
    Option (Chunks × List Broadcast) :=
  match runUpdates c.max_height c.registry.airId
      (stackW c.max_height msgUpdates.reverse) c msgUpdates.reverse [] with
  | .fuelOut => none
  | .panicked => none
  | .done c1 results =>
    some (c1.clearCache,
      c1.chunk_cache.map (fun coords => { msg := mkChunkUpdateMsg coords, exclude := [] })
        ++ [{ msg := mkAggregateMsg results, exclude := [] }])

/-- The rejection test of the drain loop, evaluated against a fixed
engine state: true exactly when the entry would be skipped by one of the
guards of `World::on_update` (rather than applied or panicking). -/
def isRejected (mh : Nat) (c : Chunks) (u : Update) : Bool :=
  if u.vy < 0 || (mh : Int) ≤ u.vy || !(c.registry.has_type u.type) then true
  else
    match c.get_chunk_by_voxel u.vx u.vy u.vz with
    | none => false
    | some np =>
      np || (c.registry.is_air (c.get_voxel_by_voxel u.vx u.vy u.vz)
        && c.registry.is_air u.type)

/-- Per-session client record (`server.rs` struct `Client`).  The
outbound `Recipient` sink is modelled by `sink_ok`: whether `do_send` on
this client's sink succeeds.  `position` is stored in voxel units (the
world-to-voxel float conversion of `utils::convert` is outside the
sources and not computed with by the claims). -/
structure ClientRec where
  id : Nat
  name : Option String
  sink_ok : Bool
  position : Int × Int × Int
  rotation : Int × Int × Int × Int
  current_chunk : Option (Int × Int)
  requested_chunks : List (Int × Int)
  render_radius : Int
deriving DecidableEq, Repr

/-- `World::broadcast` (`world.rs` lines 123–145) over the client table:
for every client not excluded, send; collect ids whose sink failed
(`resting_clients`) and remove them afterwards.  Returns the surviving
table and the ids that actually received the message. -/
def broadcastClients (clients : List ClientRec) (exclude : List Nat) :
    List ClientRec × List Nat :=
  let resting := clients.foldl
    (fun acc c =>
      if exclude.contains c.id then acc
      else if c.sink_ok then acc else acc ++ [c.id])
    []
  (clients.filter (fun c => !(resting.contains c.id)),
   (clients.filter (fun c => !(exclude.contains c.id) && c.sink_ok)).map (fun c => c.id))

/-- Per-world clock (`clock.rs` fields read by `on_config`); the `f32`
carriers are modelled as `Int`. -/
structure ClockT where
  time : Int
  tick_speed : Int
deriving DecidableEq, Repr

/-- `World::on_chunk_request` (`world.rs` lines 147–158):
`parse_json().unwrap()` then `json["x"].as_i64().unwrap()` — a malformed
or wrongly-shaped payload panics (`none`); otherwise the coordinate is
appended to the requesting client's queue (silently dropped when the
client is unknown). -/
def World.on_chunk_request (clients : List ClientRec) (client_id : Nat)
    (msg : WireMessage) : Option (List ClientRec) :=
  match msg.json with
  | none => none
  | some (.chunkReq x z) =>
    some (clients.map fun c =>
      if c.id = client_id then
        { c with requested_chunks := c.requested_chunks ++ [(x, z)] }
      else c)
  | some _ => none

/-- Field reads `json["time"].as_f64()` / `json["tickSpeed"].as_f64()`
performed by `on_config`: absent on any other payload shape. -/
def jsonTime : ParsedJson → Option Int
  | .configPayload t _ => t
  | _ => none

def jsonTickSpeed : ParsedJson → Option Int
  | .configPayload _ ts => ts
  | _ => none

/-- `World::on_config` (`world.rs` lines 160–183): `parse_json().unwrap()`
panics on malformed payload; present fields update the clock; then the
same config JSON is rebroadcast to all clients (empty exclusion). -/
def World.on_config (clock : ClockT) (_client_id : Nat) (msg : WireMessage) :
    Option (ClockT × List Broadcast) :=
  match msg.json with
  | none => none
  | some j =>
    let clock1 :=
      match jsonTime j with
      | some t => { clock with time := t }
      | none => clock
    let clock2 :=
      match jsonTickSpeed j with
      | some ts => { clock1 with tick_speed := ts }
      | none => clock1
    some (clock2, [{ msg := { createOfType .config with json := some j }, exclude := [] }])

/-- The one-time join chat of `on_peer` (`create_chat_message(Message,
Info, "", "<name> joined the game")`). -/
def mkJoinChatMsg (peerName : String) : WireMessage :=
  { createOfType .chat with
    chat := some ⟨ChatKind.info, "", peerName ++ " joined the game"⟩ }

/-- `World::on_peer` (`world.rs` lines 267–326): destructures
`&msg.peers[0]` before anything else — an empty peers list panics
(`none`).  Unknown client: redundant remove, return.  Otherwise set
name/position/rotation, broadcast a join chat if the stored name was
absent (freshly joined), then rebroadcast the peer packet excluding the
sender. -/
def World.on_peer (clients : List ClientRec) (client_id : Nat)
    (msg : WireMessage) : Option (List ClientRec × List Broadcast) :=
  match msg.peers with
  | [] => none
  | p :: _ =>
    match clients.find? (fun c => c.id == client_id) with
    | none => some (clients.filter (fun c => !(c.id == client_id)), [])
    | some cl =>
      let freshly_joined := cl.name.isNone
      let clients1 := clients.map fun c =>
        if c.id = client_id then
          { c with
            name := some p.name,
            position := (p.px, p.py, p.pz),
            rotation := (p.qx, p.qy, p.qz, p.qw) }
        else c
      let joinPart : List Broadcast :=
        if freshly_joined then [{ msg := mkJoinChatMsg p.name, exclude := [] }] else []
      some (clients1, joinPart ++ [{ msg := msg, exclude := [client_id] }])

/-- One world as the hub (`WsServer`) sees it: key/name, chunk size (for
boundary-crossing detection), client table, and — modelled from the
spec — whether `Chunks::get(coords, MeshLevel::All, false)` can produce
the chunk right now (`ready`). -/
structure SrvWorld where
  name : String
  chunk_size : Nat
  ready : Int × Int → Bool
  clients : List ClientRec

def findWorld (ws : List SrvWorld) (n : String) : Option SrvWorld :=
  ws.find? (fun w => w.name == n)

def updateWorld (ws : List SrvWorld) (n : String) (f : SrvWorld → SrvWorld) :
    List SrvWorld :=
  ws.map fun w => if w.name == n then f w else w

/-- `WsServer::broadcast` applied to each queued `(world, message,
exclude)` triple, recording the recipient ids of each delivery; a missing
world is skipped (the `?` operator returns `None`, no panic). -/
def deliverQueue : List (String × WireMessage × List Nat) → List SrvWorld →
    List (String × WireMessage × List Nat) →
    List SrvWorld × List (String × WireMessage × List Nat)
  | [], ws, dv => (ws, dv)
  | (n, m, ex) :: rest, ws, dv =>
    match findWorld ws n with
    | none => deliverQueue rest ws dv
    | some w =>
      let r := broadcastClients w.clients ex
      deliverQueue rest (updateWorld ws n (fun w0 => { w0 with clients := r.1 }))
        (dv ++ [(n, m, r.2)])

/-- First pass of `WsServer::chunking` over one world: every named client
pops the front of its `requested_chunks` (possibly `None`) and
contributes a `(popped, world_name, client_id)` entry. -/
def popRequested (w : SrvWorld) : SrvWorld × List (Option (Int × Int) × String × Nat) :=
  ({ w with clients := w.clients.map fun c =>
      if c.name.isSome then { c with requested_chunks := c.requested_chunks.tail } else c },
   w.clients.filterMap fun c =>
      if c.name.isSome then some (c.requested_chunks.head?, w.name, c.id) else none)

def chunkingPhase1 (ws : List SrvWorld) :
    List SrvWorld × List (Option (Int × Int) × String × Nat) :=
  ws.foldl
    (fun acc w =>
      let r := popRequested w
      (acc.1 ++ [r.1], acc.2 ++ r.2))
    ([], [])

/-- The `Load` message of the chunking tick (`default_for(Load)` with the
chunk protocol payload, abstracted to its coordinates). -/
def mkLoadMsg (coords : Int × Int) : WireMessage :=
  { createOfType .load with chunks := [coords] }

/-- Requeue path of the chunking tick: `get_mut(&client_id).unwrap()`
then `requested_chunks.push_back(coords)`; panics if the client vanished. -/
def pushBackRequested (w : SrvWorld) (cid : Nat) (coords : Int × Int) :
    Option SrvWorld :=
  if (w.clients.find? (fun c => c.id == cid)).isSome then
    some { w with clients := w.clients.map fun c =>
      if c.id == cid then { c with requested_chunks := c.requested_chunks ++ [coords] } else c }
  else none

/-- Second pass of `WsServer::chunking` (`server.rs` lines 167–196): for
each popped request, ship a `Load` message **queued with an empty
exclusion list** if the chunk is ready, else push the coordinate back to
the tail of the client's queue.  `worlds.get_mut(..).unwrap()` panics on
a missing world (`none`). -/
def chunkingDrain : List (Option (Int × Int) × String × Nat) → List SrvWorld →
    List (String × WireMessage × List Nat) →
    Option (List SrvWorld × List (String × WireMessage × List Nat))
  | [], ws, mq => some (ws, mq)
  | (none, _, _) :: rest, ws, mq => chunkingDrain rest ws mq
  | (some coords, n, cid) :: rest, ws, mq =>
    match findWorld ws n with
    | none => none
    | some w =>
      if w.ready coords then
        chunkingDrain rest ws (mq ++ [(n, mkLoadMsg coords, [])])
      else
        match pushBackRequested w cid coords with
        | none => none
        | some w1 => chunkingDrain rest (updateWorld ws n (fun _ => w1)) mq

/-- `WsServer::chunking` (`server.rs` lines 145–203): pop one request per
named client, ship ready chunks as `Load` broadcasts, requeue the rest,
then deliver the queued messages.  Returns the updated worlds and the
deliveries performed, each with its recipient ids. -/
def WsServer.chunking (ws : List SrvWorld) :
    Option (List SrvWorld × List (String × WireMessage × List Nat)) :=
  let p1 := chunkingPhase1 ws
  match chunkingDrain p1.2 p1.1 [] with
  | none => none
  | some (ws2, mq) => some (deliverQueue mq ws2 [])

/-- Per-client step of the world tick (`server.rs` lines 116–135):
unnamed clients are skipped; a named client whose chunk, recomputed from
its position, differs from `current_chunk` has `current_chunk` updated
and contributes a `(new_chunk, render_radius)` generation request. -/
def tickClientStep (cs : Nat) (acc : List ClientRec × List ((Int × Int) × Int))
    (c : ClientRec) : List ClientRec × List ((Int × Int) × Int) :=
  if c.name.isNone then (acc.1 ++ [c], acc.2)
  else
    let nc := chunkCoords cs c.position.1 c.position.2.2
    if c.current_chunk = some nc then (acc.1 ++ [c], acc.2)
    else (acc.1 ++ [{ c with current_chunk := some nc }], acc.2 ++ [(nc, c.render_radius)])

def tickClientsRun (cs : Nat) (clients : List ClientRec) :
    List ClientRec × List ((Int × Int) × Int) :=
  clients.foldl (tickClientStep cs) ([], [])

/-- Per-world step of `WsServer::tick` (`server.rs` lines 98–143): detect
boundary crossings, append them to the **shared** `to_generate`
accumulator (declared once, outside the world loop, never cleared), then
invoke `Chunks::generate` on this world for **every** accumulated entry;
the third component logs, world by world, the generate calls issued. -/
def serverTickStep
    (acc : List SrvWorld × List ((Int × Int) × Int) × List (List ((Int × Int) × Int)))
    (w : SrvWorld) :
    List SrvWorld × List ((Int × Int) × Int) × List (List ((Int × Int) × Int)) :=
  let r := tickClientsRun w.chunk_size w.clients
  let to_generate := acc.2.1 ++ r.2
  (acc.1 ++ [{ w with clients := r.1 }], to_generate, acc.2.2 ++ [to_generate])

/-- `WsServer::tick`: returns the updated worlds and, aligned with the
world list, the list of `Chunks::generate` invocations each world
received during this tick. -/
def WsServer.tick (ws : List SrvWorld) :
    List SrvWorld × List (List ((Int × Int) × Int)) :=
  let r := ws.foldl serverTickStep ([], [], [])
  (r.1, r.2.2)

/-- The Leave chat message (`server.rs` lines 256–262):
`create_chat_message(Leave, Info, "", "<name or Somebody> left the
game")` with `text` set to the departing client id rendered as a string. -/
def mkLeaveMsg (nameOpt : Option String) (cid : Nat) : WireMessage :=
  { createOfType .leave with
    chat := some ⟨ChatKind.info, "", (nameOpt.getD "Somebody") ++ " left the game"⟩,
    text := toString cid }

/-- `Handler<LeaveWorld> for WsServer` (`server.rs` lines 242–279): on an
existing world, remove the client; whenever a client record was removed
(named or not), queue the Leave chat message and broadcast it with an
empty exclusion list.  Returns the updated worlds and the deliveries
performed. -/
def WsServer.handleLeave (ws : List SrvWorld) (world_name : String) (client_id : Nat) :
    List SrvWorld × List (String × WireMessage × List Nat) :=
  match findWorld ws world_name with
  | none => (ws, [])
  | some w =>
    let removed := w.clients.find? (fun c => c.id == client_id)
    let ws1 := updateWorld ws world_name
      (fun w0 => { w0 with clients := w0.clients.filter (fun c => !(c.id == client_id)) })
    match removed with
    | none => (ws1, [])
    | some cl => deliverQueue [(w.name, mkLeaveMsg cl.name client_id, [])] ws1 []

/-! ## Concrete fixtures used by witnesses and counterexamples -/

/-- Block table fixture: 0 = Air (canonical), 1 = Dirt, 2 = a plant,
3 = Stone. -/
def testRegistry : Registry :=
  { airId := 0, types := [0, 1, 2, 3], plantIds := [2] }

/-- World fixture: stone below height 60, dirt at (5,60,5), a plant at
(5,61,5), air elsewhere above; every chunk present with propagation
done. -/
def testChunks : Chunks :=
  { chunk_size := 16, max_height := 256, registry := testRegistry,
    voxels := fun x y z =>
      if x = 5 ∧ z = 5 ∧ y = 60 then 1
      else if x = 5 ∧ z = 5 ∧ y = 61 then 2
      else if y < 60 then 3 else 0,
    has_chunk := fun _ => true, np_flag := fun _ => false,
    chunk_cache := [], writes := [] }

/-! ## Claims -/

/-- C1: every `World::on_update` call that returns normally emits, in
order, one chunk re-mesh `Update` message per dirty chunk and then
exactly one aggregate `Update` message carrying the accepted results —
the aggregate is broadcast last, after every chunk re-mesh broadcast of
the call. -/
theorem on_update_broadcasts_aggregate_last (c : Chunks) (us : List Update)
    (c2 : Chunks) (msgs : List Broadcast)
    (h : World.on_update c us = some (c2, msgs)) :
    ∃ (dirty : List (Int × Int)) (results : List Update),
      msgs = dirty.map (fun coords => { msg := mkChunkUpdateMsg coords, exclude := [] })
        ++ [{ msg := mkAggregateMsg results, exclude := [] }] := by
  unfold World.on_update at h
  cases hr : runUpdates c.max_height c.registry.airId
      (stackW c.max_height us.reverse) c us.reverse [] with
  | fuelOut => rw [hr] at h; cases h
  | panicked => rw [hr] at h; cases h
  | done c1 results =>
    rw [hr] at h
    simp only [Option.some.injEq, Prod.mk.injEq] at h
    exact ⟨c1.chunk_cache, results, h.2.symm⟩

/-- Witness for C1: a concrete accepted update (stone at (0,30,0)
replaced by air) produces messages of the stated shape. -/
theorem on_update_broadcasts_aggregate_last_w :
    ∃ (c2 : Chunks) (msgs : List Broadcast),
      World.on_update testChunks [⟨0, 30, 0, 0⟩] = some (c2, msgs) ∧
      ∃ (dirty : List (Int × Int)) (results : List Update),
        msgs = dirty.map (fun coords => { msg := mkChunkUpdateMsg coords, exclude := [] })
          ++ [{ msg := mkAggregateMsg results, exclude := [] }] :=
  ⟨_, _, rfl, on_update_broadcasts_aggregate_last testChunks [⟨0, 30, 0, 0⟩] _ _ rfl⟩

/-- C9: `World::on_peer` destructures `&msg.peers[0]` before looking up
the client, so a message with an empty peers list panics (modelled:
`none`), and a normal return requires a non-empty peers list. -/
theorem on_peer_empty_peers_panics (clients : List ClientRec) (client_id : Nat)
    (msg : WireMessage) :
    (msg.peers = [] → World.on_peer clients client_id msg = none) ∧
    (∀ r, World.on_peer clients client_id msg = some r → msg.peers ≠ []) := by
  constructor
  · intro h
    unfold World.on_peer
    rw [h]
  · intro r hr hemp
    unfold World.on_peer at hr
    rw [hemp] at hr
    cases hr

/-- Witness for C9: a concrete peer message with an empty peers list
makes `on_peer` panic. -/
theorem on_peer_empty_peers_panics_w :
    World.on_peer [] 1 (createOfType .peer) = none :=
  (on_peer_empty_peers_panics [] 1 (createOfType .peer)).1 rfl

/-- C6 (amended): a malformed JSON payload makes `on_chunk_request` and
`on_config` panic on `parse_json().unwrap()` before any state is written
(modelled: the handler returns `none` instead of an updated state); the
message is not dropped gracefully. -/
theorem malformed_json_panics (clients : List ClientRec) (clock : ClockT)
    (cid : Nat) (msg : WireMessage) (h : msg.json = none) :
    World.on_chunk_request clients cid msg = none ∧
    World.on_config clock cid msg = none := by
  constructor
  · unfold World.on_chunk_request
    rw [h]
  · unfold World.on_config
    rw [h]

/-- Witness for the amended C6 at a concrete malformed message. -/
theorem malformed_json_panics_w :
    World.on_chunk_request [] 1 (createOfType .request) = none ∧
    World.on_config ⟨0, 1⟩ 1 (createOfType .config) = none :=
  ⟨(malformed_json_panics [] ⟨0, 1⟩ 1 (createOfType .request) rfl).1,
   (malformed_json_panics [] ⟨0, 1⟩ 1 (createOfType .config) rfl).2⟩

/-- Counterexample to C6 as stated: on a malformed payload the handlers
do not return normally — both panic (`none`), so a malformed payload does
abort the handler rather than being dropped. -/
theorem on_handlers_malformed_cex :
    World.on_chunk_request
      [{ id := 1, name := some "A", sink_ok := true, position := (0, 0, 0),
         rotation := (0, 0, 0, 0), current_chunk := none,
         requested_chunks := [], render_radius := 3 }] 1
      { createOfType .request with json := none } = none ∧
    World.on_config ⟨100, 2⟩ 1 { createOfType .config with json := none } = none :=
  ⟨rfl, rfl⟩

/-- Client fixtures for the chunk-streaming counterexample: client 1 has
requested chunk (0,0); client 2 has requested nothing. -/
def clientA : ClientRec :=
  { id := 1, name := some "A", sink_ok := true, position := (0, 0, 0),
    rotation := (0, 0, 0, 0), current_chunk := some (0, 0),
    requested_chunks := [(0, 0)], render_radius := 3 }

def clientB : ClientRec :=
  { id := 2, name := some "B", sink_ok := true, position := (0, 0, 0),
    rotation := (0, 0, 0, 0), current_chunk := some (0, 0),
    requested_chunks := [], render_radius := 3 }

def cexChunkWorlds : List SrvWorld :=
  [{ name := "W", chunk_size := 16, ready := fun _ => true,
     clients := [clientA, clientB] }]

/-- C4: evaluating `WsServer::chunking` at the failing input — one world,
client 1 requested the (ready) chunk (0,0), client 2 requested nothing.
The resulting `Load` message is queued with an **empty** exclusion list,
so the broadcast delivers it to both clients: client 2 receives a `Load`
it never requested, contradicting the claim that only the requester
receives it. -/
theorem chunking_load_broadcast_to_all :
    ∃ ws2, WsServer.chunking cexChunkWorlds
      = some (ws2, [("W", mkLoadMsg (0, 0), [1, 2])]) ∧ (2 : Nat) ∈ [1, 2] ∧ (2 : Nat) ≠ 1 :=
  ⟨_, rfl, by decide, by decide⟩

theorem runUpdates_nil (mh air fuel : Nat) (c : Chunks) (res : List Update) :
    runUpdates mh air fuel c [] res = .done c res := by
  cases fuel <;> rfl

theorem length_le_stackW (mh : Nat) (s : List Update) : s.length ≤ stackW mh s := by
  induction s with
  | nil => simp [stackW]
  | cons u rest ih =>
    simp only [stackW, List.map_cons, List.sum_cons, List.length_cons] at *
    have h1 : 1 ≤ updWeight mh u := by simp [updWeight]
    omega

/-- A stack of entries all rejected by the guards of the drain loop
leaves the engine state untouched and contributes nothing to the
results. -/
theorem runUpdates_all_rejected (mh air : Nat) (c : Chunks) :
    ∀ (stack : List Update) (fuel : Nat) (res : List Update),
      (∀ u ∈ stack, isRejected mh c u = true) →
      stack.length ≤ fuel →
      runUpdates mh air fuel c stack res = .done c res := by
  intro stack
  induction stack with
  | nil => intro fuel res _ _; exact runUpdates_nil mh air fuel c res
  | cons u rest ih =>
    intro fuel res hrej hlen
    match fuel with
    | 0 => simp at hlen
    | f + 1 =>
      have hu : isRejected mh c u = true := hrej u (List.mem_cons_self u rest)
      have hrest : ∀ v ∈ rest, isRejected mh c v = true :=
        fun v hv => hrej v (List.mem_cons_of_mem u hv)
      have hlen2 : rest.length ≤ f := by
        simp only [List.length_cons] at hlen; omega
      unfold isRejected at hu
      unfold runUpdates
      by_cases h1 : (decide (u.vy < 0) || decide ((mh : Int) ≤ u.vy)
          || !(c.registry.has_type u.type)) = true
      · rw [if_pos h1]
        exact ih f res hrest hlen2
      · rw [if_neg h1] at hu ⊢
        cases hch : c.get_chunk_by_voxel u.vx u.vy u.vz with
        | none => rw [hch] at hu; simp at hu
        | some np =>
          rw [hch] at hu
          simp only at hu ⊢
          cases np with
          | true =>
            rw [if_pos rfl]
            exact ih f res hrest hlen2
          | false =>
            simp only [Bool.false_or] at hu
            rw [if_neg (by simp), if_pos hu]
            exact ih f res hrest hlen2

/-- C5 (amended): when every entry of an `on_update` call is rejected
(out-of-range `vy`, unknown type, `needs_propagation` chunk, or air over
air), no voxel is written and no chunk re-mesh message is emitted — but
the code still broadcasts exactly one aggregate `Update` message carrying
an empty results list. -/
theorem on_update_all_rejected_aggregate_only (c : Chunks) (us : List Update)
    (hrej : ∀ u ∈ us, isRejected c.max_height c u = true)
    (hcache : c.chunk_cache = []) :
    World.on_update c us
        = some (c.clearCache, [{ msg := mkAggregateMsg [], exclude := [] }]) ∧
    c.clearCache.voxels = c.voxels ∧ c.clearCache.writes = c.writes := by
  have hrej2 : ∀ u ∈ us.reverse, isRejected c.max_height c u = true :=
    fun u hu => hrej u (List.mem_reverse.mp hu)
  have hrun := runUpdates_all_rejected c.max_height c.registry.airId c us.reverse
    (stackW c.max_height us.reverse) [] hrej2 (length_le_stackW _ _)
  refine ⟨?_, rfl, rfl⟩
  unfold World.on_update
  rw [hrun]
  simp [hcache]

/-- Witness for the amended C5: the spec's out-of-range scenario
`[(0,-1,0,stone), (0,300,0,stone)]` yields exactly one empty aggregate
broadcast and an unchanged world. -/
theorem on_update_all_rejected_aggregate_only_w :
    World.on_update testChunks [⟨0, -1, 0, 3⟩, ⟨0, 300, 0, 3⟩]
      = some (testChunks.clearCache, [{ msg := mkAggregateMsg [], exclude := [] }]) :=
  (on_update_all_rejected_aggregate_only testChunks [⟨0, -1, 0, 3⟩, ⟨0, 300, 0, 3⟩]
    (by decide) rfl).1

/-- Counterexample to C5 as stated: an `on_update` call whose entries are
all rejected still broadcasts a message — the empty aggregate — so it is
false that no message at all is sent. -/
theorem on_update_all_rejected_still_broadcasts_cex :
    (∀ u ∈ [(⟨0, -1, 0, 3⟩ : Update), ⟨0, 300, 0, 3⟩],
        isRejected testChunks.max_height testChunks u = true) ∧
    (∃ c2 msgs, World.on_update testChunks [⟨0, -1, 0, 3⟩, ⟨0, 300, 0, 3⟩]
        = some (c2, msgs) ∧ msgs ≠ []) :=
  ⟨by decide, ⟨_, _, rfl, by decide⟩⟩


theorem findWorld_updateWorld (ws : List SrvWorld) (n n2 : String)
    (f : SrvWorld → SrvWorld) (hf : ∀ w, (f w).name = w.name) :
    findWorld (updateWorld ws n f) n2 =
      (findWorld ws n2).map (fun w => if w.name == n then f w else w) := by
  unfold findWorld updateWorld
  rw [List.find?_map]
  have hp : ((fun w => w.name == n2) ∘ fun w : SrvWorld => if w.name == n then f w else w)
      = fun w : SrvWorld => w.name == n2 := by
    funext w
    by_cases h : (w.name == n) = true
    · simp [Function.comp, h, hf]
    · simp [Function.comp, h]
  rw [hp]

/-- C7 (amended): `Handler<LeaveWorld>` removes the client and broadcasts
the Leave chat message **iff the client record existed** in the world's
table — whether or not it had a name (a nameless client yields the body
"Somebody left the game"); the message's `text` field carries the
departing client id as a string; an unknown world or client broadcasts
nothing. -/
theorem leave_broadcast_iff_client_found (ws : List SrvWorld) (wn : String) (cid : Nat) :
    (findWorld ws wn = none → (WsServer.handleLeave ws wn cid).2 = []) ∧
    (∀ w, findWorld ws wn = some w →
      (w.clients.find? (fun c => c.id == cid) = none →
        (WsServer.handleLeave ws wn cid).2 = []) ∧
      (∀ cl, w.clients.find? (fun c => c.id == cid) = some cl →
        ∃ recips, (WsServer.handleLeave ws wn cid).2
            = [(w.name, mkLeaveMsg cl.name cid, recips)]
          ∧ (mkLeaveMsg cl.name cid).text = toString cid)) := by
  constructor
  · intro h
    unfold WsServer.handleLeave
    rw [h]
  · intro w hw
    have hw2 : ws.find? (fun w => w.name == wn) = some w := hw
    have hbeq := List.find?_some hw2
    have hwname : w.name = wn := eq_of_beq hbeq
    constructor
    · intro hcl
      unfold WsServer.handleLeave
      rw [hw]
      simp only [hcl]
    · intro cl hcl
      unfold WsServer.handleLeave
      rw [hw]
      simp only [hcl]
      unfold deliverQueue
      rw [findWorld_updateWorld ws wn w.name
        (fun w0 => { w0 with clients := w0.clients.filter (fun c => !(c.id == cid)) })
        (fun _ => rfl)]
      rw [hwname, hw]
      simp only [Option.map_some']
      exact ⟨_, rfl, rfl⟩

def wLeaveClient : ClientRec :=
  { id := 9, name := some "Bob", sink_ok := true, position := (0, 0, 0),
    rotation := (0, 0, 0, 0), current_chunk := none,
    requested_chunks := [], render_radius := 3 }

def wLeaveWorld : SrvWorld :=
  { name := "V", chunk_size := 16, ready := fun _ => true, clients := [wLeaveClient] }

/-- Witness for the amended C7: a present, named client yields exactly
one queued Leave broadcast with its id in `text`. -/
theorem leave_broadcast_iff_client_found_w :
    ∃ recips, (WsServer.handleLeave [wLeaveWorld] "V" 9).2
        = [(wLeaveWorld.name, mkLeaveMsg wLeaveClient.name 9, recips)]
      ∧ (mkLeaveMsg wLeaveClient.name 9).text = toString 9 :=
  ((leave_broadcast_iff_client_found [wLeaveWorld] "V" 9).2 wLeaveWorld rfl).2
    wLeaveClient rfl

/-- World fixture for the Leave counterexample: one world, one client
(id 7) whose handshake never completed (`name = none`). -/
def cexLeaveWorlds : List SrvWorld :=
  [{ name := "W", chunk_size := 16, ready := fun _ => true,
     clients := [{ id := 7, name := none, sink_ok := true, position := (0, 0, 0),
                   rotation := (0, 0, 0, 0), current_chunk := none,
                   requested_chunks := [], render_radius := 3 }] }]

/-- Counterexample to C7 as stated: the removed client had **no** name,
yet the handler still queues and broadcasts a Leave chat message (body
"Somebody left the game", `text` = "7") — the broadcast is not
conditional on the handshake having completed. -/
theorem leave_unnamed_broadcasts_cex :
    (∀ w ∈ cexLeaveWorlds, ∀ cl ∈ w.clients, cl.name = none) ∧
    (WsServer.handleLeave cexLeaveWorlds "W" 7).2 = [("W", mkLeaveMsg none 7, [])] ∧
    (mkLeaveMsg none 7).text = "7" ∧
    (mkLeaveMsg none 7).chat = some ⟨ChatKind.info, "", "Somebody left the game"⟩ :=
  ⟨by decide, by decide, by decide, by decide⟩

/-- The `resting_clients` accumulator built by the broadcast fold equals
the ids of the non-excluded clients whose sink failed, in table order. -/
theorem resting_fold_eq (exclude : List Nat) :
    ∀ (clients : List ClientRec) (acc : List Nat),
      clients.foldl
        (fun a c =>
          if exclude.contains c.id then a
          else if c.sink_ok then a else a ++ [c.id]) acc
      = acc ++ (clients.filter
          (fun c => !(exclude.contains c.id) && !(c.sink_ok))).map (fun c => c.id) := by
  intro clients
  induction clients with
  | nil => intro acc; simp
  | cons c rest ih =>
    intro acc
    simp only [List.foldl_cons]
    by_cases h1 : exclude.contains c.id = true
    · rw [if_pos h1, ih]
      have hp : (!(exclude.contains c.id) && !(c.sink_ok)) = false := by
        rw [h1]; rfl
      rw [List.filter_cons, hp, if_neg (by decide)]
    · have h1f : exclude.contains c.id = false := by
        cases hb : exclude.contains c.id
        · rfl
        · exact absurd hb h1
      by_cases h2 : c.sink_ok = true
      · rw [if_neg h1, if_pos h2, ih]
        have hp : (!(exclude.contains c.id) && !(c.sink_ok)) = false := by
          rw [h2]
          simp only [Bool.not_true, Bool.and_false]
        rw [List.filter_cons, hp, if_neg (by decide)]
      · have h2f : c.sink_ok = false := by
          cases hb : c.sink_ok
          · rfl
          · exact absurd hb h2
        rw [if_neg h1, if_neg h2, ih]
        have hp : (!(exclude.contains c.id) && !(c.sink_ok)) = true := by
          rw [h1f, h2f]; rfl
        rw [List.filter_cons, hp, if_pos rfl, List.map_cons]
        simp

/-- C8: after `World::broadcast`, every non-excluded client whose sink
failed has been removed from the client table, and every client that was
excluded or whose send succeeded remains. -/
theorem broadcast_evicts_failed_sinks (clients : List ClientRec) (exclude : List Nat)
    (hids : (clients.map (fun c => c.id)).Nodup) :
    (∀ c ∈ clients, c.id ∉ exclude → c.sink_ok = false →
        ∀ c2 ∈ (broadcastClients clients exclude).1, c2.id ≠ c.id) ∧
    (∀ c ∈ clients, (c.id ∈ exclude ∨ c.sink_ok = true) →
        c ∈ (broadcastClients clients exclude).1) := by
  constructor
  · intro c hc hex hok c2 hc2 heq
    unfold broadcastClients at hc2
    rw [List.mem_filter] at hc2
    have h2 := hc2.2
    rw [resting_fold_eq, heq, Bool.not_eq_true'] at h2
    have h3 := by simpa only [List.nil_append, List.contains, List.elem_eq_mem,
      decide_eq_false_iff_not] using h2
    apply h3
    refine List.mem_map.mpr ⟨c, List.mem_filter.mpr ⟨hc, ?_⟩, rfl⟩
    simp [hex, hok]
  · intro c hc hcond
    unfold broadcastClients
    rw [List.mem_filter]
    refine ⟨hc, ?_⟩
    rw [resting_fold_eq, Bool.not_eq_true']
    simp only [List.nil_append]
    have hnotin : c.id ∉ (clients.filter
        (fun c => !(exclude.contains c.id) && !(c.sink_ok))).map (fun c => c.id) := by
      intro hin
      rcases List.mem_map.mp hin with ⟨c2, hc2f, hid⟩
      rcases List.mem_filter.mp hc2f with ⟨hc2mem, hc2p⟩
      have hceq : c2 = c := List.inj_on_of_nodup_map hids hc2mem hc hid
      subst hceq
      simp only [Bool.and_eq_true, Bool.not_eq_true'] at hc2p
      rcases hcond with h | h
      · have hno : c2.id ∉ exclude := by
          simpa only [List.contains, List.elem_eq_mem, decide_eq_false_iff_not]
            using hc2p.1
        exact hno h
      · have hq := hc2p.2
        rw [h] at hq
        exact Bool.noConfusion hq
    simpa only [List.contains, List.elem_eq_mem, decide_eq_false_iff_not] using hnotin

def wBroadcastClients : List ClientRec :=
  [{ id := 1, name := some "A", sink_ok := true, position := (0, 0, 0),
     rotation := (0, 0, 0, 0), current_chunk := none,
     requested_chunks := [], render_radius := 3 },
   { id := 2, name := some "B", sink_ok := false, position := (0, 0, 0),
     rotation := (0, 0, 0, 0), current_chunk := none,
     requested_chunks := [], render_radius := 3 }]

/-- Witness for C8: with client 2's sink poisoned, a broadcast with no
exclusions evicts client 2 and keeps client 1. -/
theorem broadcast_evicts_failed_sinks_w :
    (∀ c2 ∈ (broadcastClients wBroadcastClients []).1, c2.id ≠ 2) ∧
    ({ id := 1, name := some "A", sink_ok := true, position := (0, 0, 0),
       rotation := (0, 0, 0, 0), current_chunk := none,
       requested_chunks := [], render_radius := 3 } : ClientRec)
      ∈ (broadcastClients wBroadcastClients []).1 := by
  have h := broadcast_evicts_failed_sinks wBroadcastClients [] (by decide)
  refine ⟨?_, ?_⟩
  · intro c2 hc2
    exact h.1 (wBroadcastClients.get ⟨1, by decide⟩) (by decide) (by decide)
      (by decide) c2 hc2
  · exact h.2 _ (by decide) (Or.inr (by decide))

/-- The `to_generate` accumulator threaded through `WsServer::tick`'s
world loop: the generate-call log of the world at position `j` is the
initial accumulator followed by the crossings of every world up to and
including `j`. -/
theorem serverTick_fold (ws : List SrvWorld) :
    ∀ (w0 : List SrvWorld) (g0 : List ((Int × Int) × Int))
      (l0 : List (List ((Int × Int) × Int))),
      (ws.foldl serverTickStep (w0, g0, l0)).2.2 =
        l0 ++ (List.range ws.length).map
          (fun j => g0 ++ ((ws.take (j + 1)).map
            (fun w => (tickClientsRun w.chunk_size w.clients).2)).flatten) := by
  induction ws with
  | nil => intro w0 g0 l0; simp
  | cons w rest ih =>
    intro w0 g0 l0
    simp only [List.foldl_cons]
    rw [show serverTickStep (w0, g0, l0) w
        = (w0 ++ [{ w with clients := (tickClientsRun w.chunk_size w.clients).1 }],
           g0 ++ (tickClientsRun w.chunk_size w.clients).2,
           l0 ++ [g0 ++ (tickClientsRun w.chunk_size w.clients).2]) from rfl]
    rw [ih]
    rw [List.length_cons, List.range_succ_eq_map]
    simp only [List.map_cons, List.map_map, List.take_succ_cons, List.flatten_cons,
      List.take_zero, List.map_nil, List.flatten_nil, List.append_nil,
      List.append_assoc, List.singleton_append]
    congr 1

/-- C10: within one `WsServer::tick` over several worlds, the
`(chunk, radius)` accumulator is never cleared between worlds — the world
at position `j` receives `Chunks::generate` calls for the crossings of
every world at positions `0..j` (its own last); in particular, in a
single-world server each crossing yields exactly one generate call on its
own world. -/
theorem tick_generate_accumulates (ws : List SrvWorld) :
    (WsServer.tick ws).2 =
      (List.range ws.length).map
        (fun j => ((ws.take (j + 1)).map
          (fun w => (tickClientsRun w.chunk_size w.clients).2)).flatten) ∧
    ∀ w : SrvWorld, (WsServer.tick [w]).2
      = [(tickClientsRun w.chunk_size w.clients).2] := by
  constructor
  · show (ws.foldl serverTickStep ([], [], [])).2.2 = _
    rw [serverTick_fold ws [] [] []]
    simp
  · intro w
    show ([w].foldl serverTickStep ([], [], [])).2.2 = _
    rw [serverTick_fold [w] [] [] []]
    simp

theorem get_chunk_some (c : Chunks) (vx vy vz : Int) (np : Bool)
    (h : c.get_chunk_by_voxel vx vy vz = some np) :
    c.has_chunk (chunkCoords c.chunk_size vx vz) = true ∧
    c.np_flag (chunkCoords c.chunk_size vx vz) = np := by
  unfold Chunks.get_chunk_by_voxel at h
  by_cases hb : c.has_chunk (chunkCoords c.chunk_size vx vz) = true
  · rw [if_pos hb] at h
    injection h with h2
    exact ⟨hb, h2⟩
  · rw [if_neg hb] at h
    cases h

/-- C2: every voxel write performed by the drain loop of
`World::on_update` (beyond the pre-existing trace) satisfies all four
guards at the moment of the write: `0 ≤ vy < max_height`, the registry
knows the type, the owning chunk exists without `needs_propagation`, and
it is not air written over air — entries failing a guard are skipped
without any engine write while the loop continues. -/
theorem on_update_write_safety (mh air : Nat) :
    ∀ (fuel : Nat) (c : Chunks) (stack res : List Update) (c2 : Chunks)
      (res2 : List Update),
      runUpdates mh air fuel c stack res = .done c2 res2 →
      ∀ w ∈ c2.writes, w ∈ c.writes ∨
        (0 ≤ w.vy ∧ w.vy < (mh : Int) ∧ c.registry.has_type w.newId = true ∧
         c.has_chunk (chunkCoords c.chunk_size w.vx w.vz) = true ∧
         c.np_flag (chunkCoords c.chunk_size w.vx w.vz) = false ∧
         ¬(c.registry.is_air w.prevId = true ∧ c.registry.is_air w.newId = true)) := by
  intro fuel
  induction fuel with
  | zero =>
    intro c stack res c2 res2 h w hw
    cases stack with
    | nil =>
      rw [runUpdates_nil] at h
      injection h with h1 h2
      subst h1
      exact Or.inl hw
    | cons u rest =>
      rw [show runUpdates mh air 0 c (u :: rest) res = .fuelOut from rfl] at h
      cases h
  | succ f ih =>
    intro c stack res c2 res2 h w hw
    cases stack with
    | nil =>
      rw [runUpdates_nil] at h
      injection h with h1 h2
      subst h1
      exact Or.inl hw
    | cons u rest =>
      unfold runUpdates at h
      by_cases h1 : (decide (u.vy < 0) || decide ((mh : Int) ≤ u.vy)
          || !(c.registry.has_type u.type)) = true
      · rw [if_pos h1] at h
        exact ih c rest res c2 res2 h w hw
      · rw [if_neg h1] at h
        cases hch : c.get_chunk_by_voxel u.vx u.vy u.vz with
        | none => rw [hch] at h; cases h
        | some np =>
          rw [hch] at h
          simp only at h
          cases np with
          | true =>
            rw [if_pos rfl] at h
            exact ih c rest res c2 res2 h w hw
          | false =>
            rw [if_neg (by decide)] at h
            by_cases h2 : (c.registry.is_air (c.get_voxel_by_voxel u.vx u.vy u.vz)
                && c.registry.is_air u.type) = true
            · rw [if_pos h2] at h
              exact ih c rest res c2 res2 h w hw
            · rw [if_neg h2] at h
              have hrec := ih _ _ _ _ _ h w hw
              rcases hrec with hin | hcond
              · have hin2 : w ∈ c.writes
                    ++ [⟨u.vx, u.vy, u.vz, u.type,
                          c.get_voxel_by_voxel u.vx u.vy u.vz⟩] := hin
                rcases List.mem_append.mp hin2 with hin3 | hin4
                · exact Or.inl hin3
                · have hw_eq := List.mem_singleton.mp hin4
                  subst hw_eq
                  right
                  dsimp only
                  have hA : ¬(u.vy < 0) := by
                    intro hcond
                    exact h1 (by simp [hcond])
                  have hB : ¬((mh : Int) ≤ u.vy) := by
                    intro hcond
                    exact h1 (by simp [hcond])
                  have hC : c.registry.has_type u.type = true := by
                    cases hcb : c.registry.has_type u.type
                    · exact absurd (by simp [hcb]) h1
                    · rfl
                  have hguards := get_chunk_some c u.vx u.vy u.vz false hch
                  refine ⟨by omega, by omega, hC, hguards.1, hguards.2, ?_⟩
                  intro hcontra
                  exact h2 (by simp [hcontra.1, hcontra.2])
              · exact Or.inr hcond

/-- Witness for C2: a concrete run mixing one accepted update (air over
stone at (0,30,0)) and one rejected update (negative height): every
recorded write satisfies the four guards. -/
theorem on_update_write_safety_w :
    ∃ (c2 : Chunks) (res2 : List Update),
      runUpdates 256 0 (stackW 256 [⟨0, 30, 0, 0⟩, ⟨0, -5, 0, 3⟩]) testChunks
        [⟨0, 30, 0, 0⟩, ⟨0, -5, 0, 3⟩] [] = .done c2 res2 ∧
      ∀ w ∈ c2.writes, w ∈ testChunks.writes ∨
        (0 ≤ w.vy ∧ w.vy < ((256 : Nat) : Int) ∧
         testChunks.registry.has_type w.newId = true ∧
         testChunks.has_chunk (chunkCoords testChunks.chunk_size w.vx w.vz) = true ∧
         testChunks.np_flag (chunkCoords testChunks.chunk_size w.vx w.vz) = false ∧
         ¬(testChunks.registry.is_air w.prevId = true ∧
           testChunks.registry.is_air w.newId = true)) :=
  by
  have h : runUpdates 256 0 (stackW 256 [⟨0, 30, 0, 0⟩, ⟨0, -5, 0, 3⟩]) testChunks
      [⟨0, 30, 0, 0⟩, ⟨0, -5, 0, 3⟩] []
      = .done ((testChunks.update 0 30 0 0).addNeighborsToCache 0 30 0)
          [⟨0, 30, 0, 0⟩] := rfl
  exact ⟨_, _, h, on_update_write_safety 256 0 (stackW 256 [⟨0, 30, 0, 0⟩, ⟨0, -5, 0, 3⟩])
    testChunks [⟨0, 30, 0, 0⟩, ⟨0, -5, 0, 3⟩] [] _ _ h⟩

/-- Plant-cascade invariant: processing a single air update at the base
of a column of `n` stacked plants (support at `y0`, plants at
`y0+1 … y0+n`, non-plant above) drains in `n+1` iterations, turning the
support and every plant to air and appending the matching air updates to
the results in ascending order. -/
theorem cascade_run (x z : Int) : ∀ (n : Nat) (c : Chunks) (y0 : Int) (fuel : Nat)
    (res : List Update) (mh : Nat),
    0 ≤ y0 →
    y0 + (n : Int) < (mh : Int) →
    c.registry.has_type c.registry.airId = true →
    c.registry.is_air (c.voxels x y0 z) = false →
    (∀ k : Nat, k < n →
      c.registry.is_plant (c.voxels x (y0 + 1 + (k : Int)) z) = true ∧
      c.registry.is_air (c.voxels x (y0 + 1 + (k : Int)) z) = false) →
    c.registry.is_plant (c.voxels x (y0 + 1 + (n : Int)) z) = false →
    c.has_chunk (chunkCoords c.chunk_size x z) = true →
    c.np_flag (chunkCoords c.chunk_size x z) = false →
    n + 1 ≤ fuel →
    ∃ c2,
      runUpdates mh c.registry.airId fuel c [⟨x, y0, z, c.registry.airId⟩] res
        = .done c2 (res ++ ⟨x, y0, z, c.registry.airId⟩ ::
            (List.range n).map (fun k => ⟨x, y0 + 1 + (k : Int), z, c.registry.airId⟩)) ∧
      (∀ k : Nat, k ≤ n → c2.voxels x (y0 + (k : Int)) z = c.registry.airId) ∧
      (∀ y : Int, y < y0 → c2.voxels x y z = c.voxels x y z) := by
  intro n
  induction n with
  | zero =>
    intro c y0 fuel res mh hy0 hbound hairtype hcur hplants htop hchunk hnp hfuel
    match fuel with
    | 0 => exact absurd hfuel (by omega)
    | f + 1 =>
      unfold runUpdates
      have hg1 : (decide ((⟨x, y0, z, c.registry.airId⟩ : Update).vy < 0)
          || decide ((mh : Int) ≤ (⟨x, y0, z, c.registry.airId⟩ : Update).vy)
          || !(c.registry.has_type (⟨x, y0, z, c.registry.airId⟩ : Update).type))
          = false := by
        dsimp only
        rw [hairtype]
        simp only [Bool.not_true, Bool.or_false]
        rw [decide_eq_false (by omega : ¬(y0 < 0)),
          decide_eq_false (by push_cast at hbound; omega : ¬((mh : Int) ≤ y0))]
        rfl
      rw [if_neg (by rw [hg1]; exact Bool.false_ne_true)]
      have hgc : c.get_chunk_by_voxel x y0 z = some false := by
        unfold Chunks.get_chunk_by_voxel
        rw [if_pos hchunk, hnp]
      rw [hgc]
      simp only
      rw [if_neg (by decide)]
      have hg2 : (c.registry.is_air (c.get_voxel_by_voxel x y0 z)
          && c.registry.is_air c.registry.airId) = false := by
        show (c.registry.is_air (c.voxels x y0 z) && _) = false
        rw [hcur]
        rfl
      rw [if_neg (by rw [hg2]; exact Bool.false_ne_true)]
      have htop0 : c.registry.is_plant (c.voxels x (y0 + 1) z) = false := by
        have h := htop
        simp only [Nat.cast_zero, add_zero] at h
        exact h
      have hvox_above :
          ((c.update x y0 z c.registry.airId).addNeighborsToCache x y0 z).get_voxel_by_voxel
            x (y0 + 1) z = c.voxels x (y0 + 1) z := by
        show (if x = x ∧ y0 + 1 = y0 ∧ z = z then c.registry.airId
          else c.voxels x (y0 + 1) z) = c.voxels x (y0 + 1) z
        rw [if_neg (by rintro ⟨-, h2, -⟩; omega)]
      rw [if_neg (by
        intro hcontra
        rw [hvox_above] at hcontra
        have hcontra2 : c.registry.is_plant (c.voxels x (y0 + 1) z) = true := hcontra
        rw [htop0] at hcontra2
        exact Bool.noConfusion hcontra2)]
      rw [runUpdates_nil]
      refine ⟨(c.update x y0 z c.registry.airId).addNeighborsToCache x y0 z,
        by simp, ?_, ?_⟩
      · intro k hk
        have hk0 : k = 0 := Nat.le_zero.mp hk
        subst hk0
        show (if x = x ∧ y0 + ((0 : Nat) : Int) = y0 ∧ z = z then c.registry.airId
          else c.voxels x (y0 + ((0 : Nat) : Int)) z) = c.registry.airId
        rw [if_pos ⟨rfl, by simp, rfl⟩]
      · intro y hy
        show (if x = x ∧ y = y0 ∧ z = z then c.registry.airId
          else c.voxels x y z) = c.voxels x y z
        rw [if_neg (by rintro ⟨-, h2, -⟩; omega)]
  | succ m ih =>
    intro c y0 fuel res mh hy0 hbound hairtype hcur hplants htop hchunk hnp hfuel
    match fuel with
    | 0 => exact absurd hfuel (by omega)
    | f + 1 =>
      unfold runUpdates
      have hg1 : (decide ((⟨x, y0, z, c.registry.airId⟩ : Update).vy < 0)
          || decide ((mh : Int) ≤ (⟨x, y0, z, c.registry.airId⟩ : Update).vy)
          || !(c.registry.has_type (⟨x, y0, z, c.registry.airId⟩ : Update).type))
          = false := by
        dsimp only
        rw [hairtype]
        simp only [Bool.not_true, Bool.or_false]
        rw [decide_eq_false (by omega : ¬(y0 < 0)),
          decide_eq_false (by push_cast at hbound; omega : ¬((mh : Int) ≤ y0))]
        rfl
      rw [if_neg (by rw [hg1]; exact Bool.false_ne_true)]
      have hgc : c.get_chunk_by_voxel x y0 z = some false := by
        unfold Chunks.get_chunk_by_voxel
        rw [if_pos hchunk, hnp]
      rw [hgc]
      simp only
      rw [if_neg (by decide)]
      have hg2 : (c.registry.is_air (c.get_voxel_by_voxel x y0 z)
          && c.registry.is_air c.registry.airId) = false := by
        show (c.registry.is_air (c.voxels x y0 z) && _) = false
        rw [hcur]
        rfl
      rw [if_neg (by rw [hg2]; exact Bool.false_ne_true)]
      have hplant0 := hplants 0 (Nat.succ_pos m)
      simp only [Nat.cast_zero, add_zero] at hplant0
      have hvox_above :
          ((c.update x y0 z c.registry.airId).addNeighborsToCache x y0 z).get_voxel_by_voxel
            x (y0 + 1) z = c.voxels x (y0 + 1) z := by
        show (if x = x ∧ y0 + 1 = y0 ∧ z = z then c.registry.airId
          else c.voxels x (y0 + 1) z) = c.voxels x (y0 + 1) z
        rw [if_neg (by rintro ⟨-, h2, -⟩; omega)]
      rw [if_pos (by
        have hgoal : ((c.update x y0 z c.registry.airId).addNeighborsToCache
            x y0 z).registry.is_plant
            (((c.update x y0 z c.registry.airId).addNeighborsToCache
              x y0 z).get_voxel_by_voxel x (y0 + 1) z) = true := by
          rw [hvox_above]
          exact hplant0.1
        exact hgoal)]
      have hvox1 : ∀ b d : Int,
          ((c.update x y0 z c.registry.airId).addNeighborsToCache x y0 z).voxels x b d
            = if x = x ∧ b = y0 ∧ d = z then c.registry.airId else c.voxels x b d :=
        fun b d => rfl
      obtain ⟨c2, hrun, hcol, hbelow⟩ :=
        ih ((c.update x y0 z c.registry.airId).addNeighborsToCache x y0 z) (y0 + 1) f
          (res ++ [⟨x, y0, z, c.registry.airId⟩]) mh
          (by omega)
          (by push_cast at hbound ⊢; omega)
          hairtype
          (by
            rw [hvox1]
            rw [if_neg (by rintro ⟨-, h2, -⟩; omega)]
            exact hplant0.2)
          (by
            intro k hk
            rw [hvox1]
            rw [if_neg (by rintro ⟨-, h2, -⟩; omega)]
            have h := hplants (k + 1) (by omega)
            have hco : y0 + 1 + ((k + 1 : Nat) : Int) = y0 + 1 + 1 + (k : Int) := by
              push_cast
              ring
            rw [hco] at h
            exact h)
          (by
            rw [hvox1]
            rw [if_neg (by rintro ⟨-, h2, -⟩; omega)]
            have h := htop
            have hco : y0 + 1 + ((m + 1 : Nat) : Int) = y0 + 1 + 1 + (m : Int) := by
              push_cast
              ring
            rw [hco] at h
            exact h)
          hchunk
          hnp
          (by omega)
      have hrun2 : runUpdates mh c.registry.airId f
          ((c.update x y0 z c.registry.airId).addNeighborsToCache x y0 z)
          [⟨x, y0 + 1, z, c.registry.airId⟩]
          (res ++ [⟨x, y0, z, c.registry.airId⟩])
          = .done c2 (res ++ [⟨x, y0, z, c.registry.airId⟩] ++
              ⟨x, y0 + 1, z, c.registry.airId⟩ ::
              List.map (fun (k : Nat) => (⟨x, y0 + 1 + 1 + (k : Int), z,
                c.registry.airId⟩ : Update)) (List.range m)) := hrun
      have hcol2 : ∀ k : Nat, k ≤ m →
          c2.voxels x (y0 + 1 + (k : Int)) z = c.registry.airId := hcol
      have hbelow2 : ∀ y : Int, y < y0 + 1 → c2.voxels x y z
          = ((c.update x y0 z c.registry.airId).addNeighborsToCache x y0 z).voxels
              x y z := hbelow
      refine ⟨c2, ?_, ?_, ?_⟩
      · rw [hrun2]
        congr 1
        rw [List.range_succ_eq_map, List.map_cons, List.map_map]
        simp only [Nat.cast_zero, add_zero, List.append_assoc, List.singleton_append]
        congr 2
        congr 1
        apply List.map_congr_left
        intro k hk
        simp only [Function.comp]
        have hco : y0 + 1 + ((k + 1 : Nat) : Int) = y0 + 1 + 1 + (k : Int) := by
          push_cast
          ring
        rw [show ((Nat.succ k : Nat) : Int) = ((k + 1 : Nat) : Int) from rfl, hco]
      · intro k hk
        match k with
        | 0 =>
          have hb := hbelow2 y0 (by omega)
          rw [hvox1] at hb
          rw [if_pos ⟨rfl, rfl, rfl⟩] at hb
          simpa using hb
        | j + 1 =>
          have h := hcol2 j (by omega)
          have hco : y0 + ((j + 1 : Nat) : Int) = y0 + 1 + (j : Int) := by
            push_cast
            ring
          rw [hco]
          exact h
      · intro y hy
        have hb := hbelow2 y (by omega)
        rw [hvox1] at hb
        rw [if_neg (by rintro ⟨-, h2, -⟩; omega)] at hb
        exact hb

/-- C3: an `on_update` call removing the support voxel under a finite
column of `n` stacked plants terminates (the drain loop returns
normally), sets the support and every plant above it to air, and the
aggregate message of the same call carries all of those air updates in
its results list. -/
theorem on_update_plant_cascade (c : Chunks) (x z y0 : Int) (n : Nat)
    (hy0 : 0 ≤ y0)
    (hbound : y0 + (n : Int) < (c.max_height : Int))
    (hairtype : c.registry.has_type c.registry.airId = true)
    (hcur : c.registry.is_air (c.voxels x y0 z) = false)
    (hplants : ∀ k : Nat, k < n →
      c.registry.is_plant (c.voxels x (y0 + 1 + (k : Int)) z) = true ∧
      c.registry.is_air (c.voxels x (y0 + 1 + (k : Int)) z) = false)
    (htop : c.registry.is_plant (c.voxels x (y0 + 1 + (n : Int)) z) = false)
    (hchunk : c.has_chunk (chunkCoords c.chunk_size x z) = true)
    (hnp : c.np_flag (chunkCoords c.chunk_size x z) = false) :
    ∃ (c2 : Chunks) (dirty : List (Int × Int)),
      World.on_update c [⟨x, y0, z, c.registry.airId⟩]
        = some (c2, dirty.map
            (fun coords => { msg := mkChunkUpdateMsg coords, exclude := [] })
          ++ [{ msg := mkAggregateMsg (⟨x, y0, z, c.registry.airId⟩ ::
                  (List.range n).map
                    (fun (k : Nat) => ⟨x, y0 + 1 + (k : Int), z, c.registry.airId⟩)),
                exclude := [] }]) ∧
      (∀ k : Nat, k ≤ n → c2.voxels x (y0 + (k : Int)) z = c.registry.airId) := by
  have hfuel : n + 1 ≤ stackW c.max_height [⟨x, y0, z, c.registry.airId⟩] := by
    simp only [stackW, updWeight, List.map_cons, List.map_nil, List.sum_cons,
      List.sum_nil]
    omega
  obtain ⟨c2, hrun, hcol, hbelow⟩ := cascade_run x z n c y0
    (stackW c.max_height [⟨x, y0, z, c.registry.airId⟩]) []
    c.max_height hy0 hbound hairtype hcur hplants htop hchunk hnp hfuel
  refine ⟨c2.clearCache, c2.chunk_cache, ?_, ?_⟩
  · unfold World.on_update
    simp only [List.reverse_singleton]
    rw [hrun]
    rfl
  · intro k hk
    exact hcol k hk

/-- Witness for C3: the spec's plant-cascade scenario — dirt at (5,60,5)
under a single plant at (5,61,5); breaking the dirt turns both voxels to
air and the aggregate carries both air updates. -/
theorem on_update_plant_cascade_w :
    ∃ (c2 : Chunks) (dirty : List (Int × Int)),
      World.on_update testChunks [⟨5, 60, 5, 0⟩]
        = some (c2, dirty.map
            (fun coords => { msg := mkChunkUpdateMsg coords, exclude := [] })
          ++ [{ msg := mkAggregateMsg (⟨5, 60, 5, 0⟩ ::
                  (List.range 1).map
                    (fun (k : Nat) => ⟨5, 60 + 1 + (k : Int), 5, 0⟩)),
                exclude := [] }]) ∧
      (∀ k : Nat, k ≤ 1 → c2.voxels 5 (60 + (k : Int)) 5 = 0) :=
  on_update_plant_cascade testChunks 5 5 60 1 (by decide) (by decide) (by decide)
    (by decide) (by decide) (by decide) (by decide) (by decide)
